import Mathlib

/-!
Shallow embedding of the candidate-acquisition and deduplication pipeline of
`src/junior.py` (functions `normalize_text`, `top_keywords`, `similarity_key`,
`parse_int_like`, `shopee_product_details`, and the selection logic of `main`).

Modelling conventions, stated once here:
* Python strings are Lean `String`s / `List Char`; the Unicode-aware character
  classes of Python's `re` (`\w`, `\s`, `\d`) and `str.lower` are modelled over
  their ASCII fragment (`Char.isAlphanum`/`_`, the six ASCII whitespace
  characters, `Char.isDigit`, `Char.toLower`); every concrete input considered
  below is ASCII, where the two coincide.
* Python `float` values are modelled as exact rationals (`ℚ`) and `float(s)`
  parsing accepts plain decimal literals (optional sign, digits, at most one
  dot); `int(x)` is truncation toward zero.  At every input appearing in the
  claims the rational result coincides with the IEEE-double result.
* The regular expressions of the source are compiled by hand into deterministic
  scanners.  For each pattern this is exact: every greedy sub-pattern of the
  source regexes consumes characters that no later sub-pattern can match, so no
  backtracking is observable (argued per pattern in the respective comments).
* Network I/O (`requests`, BeautifulSoup) is an external collaborator: the
  extractor takes the page's `<title>` text (`Option String`, `none` when the
  tag is missing) and the flattened page text as inputs; the orchestrator takes
  the search harvester `shopee_search` as a function from query strings to
  lists of product records.
-/

namespace Junior

/-- Python `\s` over ASCII: the whitespace characters recognised by `str.strip`
and by the regex class `\s`. -/
def isPySpace (c : Char) : Bool :=
  c == ' ' || c == '\t' || c == '\n' || c == '\x0b' || c == '\x0c' || c == '\r'

/-- Python `\w` over ASCII: letters, digits and underscore. -/
def isWordChar (c : Char) : Bool := c.isAlphanum || c == '_'

/-- Python `str.replace pat repl`, on fuel: replace every non-overlapping
occurrence of `pat`, scanning left to right.  The fuel only bounds the number
of steps so that the recursion is structural (hence kernel-reducible); each
step consumes at least one character, so fuel `l.length` is always enough and
the fuel-exhausted branch is unreachable from `replaceAll`. -/
def replaceAllFuel (pat repl : List Char) : Nat → List Char → List Char
  | _, [] => []
  | 0, l => l
  | fuel + 1, c :: rest =>
    if !pat.isEmpty && pat.isPrefixOf (c :: rest) then
      repl ++ replaceAllFuel pat repl fuel ((c :: rest).drop pat.length)
    else
      c :: replaceAllFuel pat repl fuel rest

/-- Python `str.replace pat repl`.  (All call sites use a non-empty `pat`.) -/
def replaceAll (pat repl l : List Char) : List Char := replaceAllFuel pat repl l.length l

/-- Python `pat in s` (substring containment). -/
def hasInfix (pat : List Char) : List Char → Bool
  | [] => pat.isEmpty
  | c :: t => pat.isPrefixOf (c :: t) || hasInfix pat t

/-- Numeric value of an ASCII digit character. -/
def digitVal (c : Char) : Nat := c.toNat - 48

/-- Value of a list of ASCII digits read in base 10. -/
def natOfDigits (l : List Char) : Nat := l.foldl (fun a c => 10 * a + digitVal c) 0

/-- Shape of an unsigned decimal literal accepted by Python's `float`:
only digits and dots, at least one digit, at most one dot. -/
def isDecimalStr (l : List Char) : Bool :=
  l.all (fun c => c.isDigit || c == '.') && l.any Char.isDigit &&
    decide ((l.filter (fun c => c == '.')).length ≤ 1)

/-- Exact value of an unsigned decimal literal, as a decimal fixed-point pair:
mantissa and number of fractional digits (the value is `m / 10 ^ e`).  Kept in
scaled-integer form so that every later arithmetic step is exact and
kernel-computable. -/
def decimalVal (l : List Char) : Int × Nat :=
  let intPart := l.takeWhile (fun c => c != '.')
  match l.dropWhile (fun c => c != '.') with
  | [] => ((natOfDigits intPart : Int), 0)
  | _ :: frac =>
    ((natOfDigits intPart * 10 ^ frac.length + natOfDigits frac : Int), frac.length)

/-- Python `float(s)`, modelled over plain decimal literals (see the header
note), as a decimal fixed-point pair; `none` is Python's `ValueError`. -/
def pyFloat (l : List Char) : Option (Int × Nat) :=
  match l with
  | '+' :: rest => if isDecimalStr rest then some (decimalVal rest) else none
  | '-' :: rest =>
    if isDecimalStr rest then some (-(decimalVal rest).1, (decimalVal rest).2) else none
  | _ => if isDecimalStr l then some (decimalVal l) else none

/-- `parse_int_like` of `src/junior.py` on a character list:
lower-case, delete dots and spaces, turn commas into dots, apply the
`mil` / `k` ×1000 suffixes, then `int(float(s) * mult)`.  The last step is
computed exactly: the float is `m / 10 ^ e`, so `int(float(s) * mult)` is the
toward-zero truncation of `m * mult / 10 ^ e`; at every input considered in
the claims this coincides with the IEEE-double computation of the source. -/
def parse_int_like_chars (l : List Char) : Option Int :=
  let s1 := l.map Char.toLower
  let s2 := replaceAll ['.'] [] s1
  let s3 := replaceAll [' '] [] s2
  let s4 := replaceAll [','] ['.'] s3
  let m1 : Int := if hasInfix "mil".data s4 then 1000 else 1
  let s5 := if hasInfix "mil".data s4 then replaceAll "mil".data [] s4 else s4
  let mult : Int := if hasInfix "k".data s5 then 1000 else m1
  let s6 := if hasInfix "k".data s5 then replaceAll "k".data [] s5 else s5
  match pyFloat s6 with
  | some me => some (Int.tdiv (me.1 * mult) ((10 : Int) ^ me.2))
  | none => none

/-- `parse_int_like` of `src/junior.py`. -/
def parse_int_like (s : String) : Option Int := parse_int_like_chars s.data

/-- One attempt of the sold/review regex `(\d+[.,]?\d*)\s*(mil|k)?\s*IND` at the
head of `l` (`IND` is `vendid` resp. `avalia`).  Returns `group(0)` and the
remaining text after the match.  Every greedy sub-pattern here consumes
characters (digits, a separator, whitespace, `mil`/`k`) that no later
sub-pattern can match, and when `mil` (resp. `k`) is present at the unit
position, declining it makes the literal `IND` face letters it cannot match;
so this deterministic reading equals the backtracking regex semantics. -/
def matchQtyAt (ind : List Char) (l : List Char) : Option (List Char × List Char) :=
  let ds := l.takeWhile Char.isDigit
  let r1 := l.dropWhile Char.isDigit
  if ds.isEmpty then none
  else
    let sep : List Char × List Char :=
      match r1 with
      | c :: t => if c == '.' || c == ',' then ([c], t) else ([], r1)
      | [] => ([], r1)
    let r2 := sep.2
    let ds2 := r2.takeWhile Char.isDigit
    let r3 := r2.dropWhile Char.isDigit
    let ws1 := r3.takeWhile isPySpace
    let r4 := r3.dropWhile isPySpace
    let unit : List Char × List Char :=
      if "mil".data.isPrefixOf r4 then ("mil".data, r4.drop 3)
      else if "k".data.isPrefixOf r4 then (['k'], r4.drop 1)
      else ([], r4)
    let r5 := unit.2
    let ws2 := r5.takeWhile isPySpace
    let r6 := r5.dropWhile isPySpace
    if ind.isPrefixOf r6 then
      some (ds ++ sep.1 ++ ds2 ++ ws1 ++ unit.1 ++ ws2 ++ ind, r6.drop ind.length)
    else none

/-- The `re.finditer` loops of lines 109-113 and 125-129 of `src/junior.py`:
walk the text left to right; at each match, strip `rm1` then `rm2` from
`group(0)`, run `parse_int_like`, and stop at the first truthy (non-`None`,
non-zero) result; `acc` carries the last parse result, which is what the
Python variable holds when the loop ends without a break.  Fuel only makes the
recursion structural; `l.length` is always enough. -/
def qtyFindFuel (ind rm1 rm2 : List Char) : Option Int → Nat → List Char → Option Int
  | acc, _, [] => acc
  | acc, 0, _ => acc
  | acc, fuel + 1, c :: t =>
    match matchQtyAt ind (c :: t) with
    | some (g0, rest) =>
      match parse_int_like_chars (replaceAll rm2 [] (replaceAll rm1 [] g0)) with
      | some n => if n == 0 then qtyFindFuel ind rm1 rm2 (some n) fuel rest else some n
      | none => qtyFindFuel ind rm1 rm2 none fuel rest
    | none => qtyFindFuel ind rm1 rm2 acc fuel t

/-- Sold-count detector of `shopee_product_details` (lines 109-113). -/
def soldDetect (l : List Char) : Option Int :=
  qtyFindFuel "vendid".data "vendidos".data "vendido".data none l.length l

/-- Review-count detector of `shopee_product_details` (lines 125-129). -/
def reviewsDetect (l : List Char) : Option Int :=
  qtyFindFuel "avalia".data "avaliações".data "avaliação".data none l.length l

/-- One attempt of the rating regex `(\d\.\d)\s*de\s*5` at the head of `l`;
on success the value of `float(group(1))` for the two digits.  The two `\s*`
are greedy but `d` and `5` are not whitespace, so the reading is exact. -/
def ratingAt (l : List Char) : Option ℚ :=
  match l with
  | c1 :: c2 :: c3 :: r =>
    if c1.isDigit && c2 == '.' && c3.isDigit then
      match r.dropWhile isPySpace with
      | 'd' :: 'e' :: r3 =>
        match r3.dropWhile isPySpace with
        | '5' :: _ => some (mkRat (10 * digitVal c1 + digitVal c3) 10)
        | _ => none
      | _ => none
    else none
  | _ => none

/-- Rating detector (`re.search`, lines 116-122): first position, left to
right, where the rating pattern matches. -/
def ratingFind : List Char → Option ℚ
  | [] => none
  | c :: t =>
    match ratingAt (c :: t) with
    | some q => some q
    | none => ratingFind t

/-- One attempt of the price regex `r\$\s*([\d\.]+[,]\d{2})` at the head of
`l`; on success `group(1)`.  `[\d\.]+` is greedy but the following `,` is not
in its class, so the reading is exact. -/
def priceAt (l : List Char) : Option (List Char) :=
  match l with
  | c0 :: c1 :: r1 =>
    if c0 == 'r' && c1 == '$' then
      let r2 := r1.dropWhile isPySpace
      let body := r2.takeWhile (fun c => c.isDigit || c == '.')
      let r3 := r2.dropWhile (fun c => c.isDigit || c == '.')
      if body.isEmpty then none
      else
        match r3 with
        | ',' :: d1 :: d2 :: _ =>
          if d1.isDigit && d2.isDigit then some (body ++ [','] ++ [d1, d2]) else none
        | _ => none
    else none
  | _ => none

/-- Price detector (`re.search`, lines 132-135). -/
def priceFind : List Char → Option (List Char)
  | [] => none
  | c :: t =>
    match priceAt (c :: t) with
    | some g => some g
    | none => priceFind t

/-- Start of the title-cleaning pattern `\s*\|\s*Shopee` at the head of `l`
(used by the `re.sub` on line 104). -/
def sitePatternAt (l : List Char) : Bool :=
  match l.dropWhile isPySpace with
  | '|' :: r2 => "Shopee".data.isPrefixOf (r2.dropWhile isPySpace)
  | _ => false

/-- `re.sub(r"\s*\|\s*Shopee.*$", "", title)`: delete from the first position
where the site-suffix pattern starts to the end of the string.  (Python's `.`
does not cross a newline; the two differ only on titles with an embedded
newline after the site marker, which no claim involves.) -/
def stripSite : List Char → List Char
  | [] => []
  | c :: cs => if sitePatternAt (c :: cs) then [] else c :: stripSite cs

/-- Python `str.strip()` over ASCII whitespace. -/
def pyStrip (l : List Char) : List Char :=
  ((l.dropWhile isPySpace).reverse.dropWhile isPySpace).reverse

/-- One scraped listing, as returned by `shopee_product_details`:
the dict of lines 137-144 of `src/junior.py`. -/
structure ProductRecord where
  title : String
  url : String
  price : String
  sold : Option Int
  rating : Option ℚ
  reviews : Option Int
deriving DecidableEq, Repr

/-- `shopee_product_details` of `src/junior.py`, with the HTTP fetch and HTML
parse abstracted away: `titleTag` is the text of the page's `<title>` element
(`none` when the tag is missing, in which case line 103 yields `""`), and
`pageText` is `soup.get_text(" ", strip=True)` before the `.lower()` call. -/
def shopee_product_details (titleTag : Option String) (pageText : String) (url : String) :
    ProductRecord :=
  let title0 := String.mk (pyStrip (stripSite (titleTag.getD "").data))
  let pageL := pageText.data.map Char.toLower
  let price := (priceFind pageL).map fun g1 => "R$ " ++ String.mk (replaceAll ['.'] [] g1)
  { title := if title0 = "" then "Produto Shopee" else title0
    url := url
    price := price.getD "R$ --"
    sold := soldDetect pageL
    rating := ratingFind pageL
    reviews := reviewsDetect pageL }

/-- `re.sub(r"[^\w\s]", " ", s)`: replace every character that is neither a
word character nor whitespace by a space. -/
def stripPunct (l : List Char) : List Char :=
  l.map fun c => if isWordChar c || isPySpace c then c else ' '

/-- `re.sub(r"\s+", " ", s)`: collapse every maximal run of whitespace into a
single space.  Each character of a run except the last is dropped; the last
becomes `' '`. -/
def collapseSpaces : List Char → List Char
  | [] => []
  | [c] => [if isPySpace c then ' ' else c]
  | c :: d :: cs =>
    if isPySpace c && isPySpace d then collapseSpaces (d :: cs)
    else (if isPySpace c then ' ' else c) :: collapseSpaces (d :: cs)

/-- `normalize_text` of `src/junior.py` (lines 17-21): lower-case, replace
punctuation by spaces, collapse whitespace runs, strip the ends. -/
def normalize_text (s : String) : String :=
  String.mk (pyStrip (collapseSpaces (stripPunct (s.data.map Char.toLower))))

/-- The `STOPWORDS` set of `src/junior.py` (lines 12-15). -/
def STOPWORDS : List String :=
  ["de", "da", "do", "das", "dos", "e", "a", "o", "os", "as", "para", "por", "com",
   "sem", "em", "no", "na", "nos", "nas", "um", "uma", "umas", "uns",
   "kit", "jogo", "conjunto", "original", "novo", "nova", "promoção", "oferta",
   "relâmpago", "frete", "grátis"]

/-- Helper for Python `str.split()` with no separator: accumulate the current
word (reversed) and emit it at each whitespace boundary. -/
def pySplitAux : List Char → List Char → List (List Char)
  | [], acc => if acc.isEmpty then [] else [acc.reverse]
  | c :: t, acc =>
    if isPySpace c then
      if acc.isEmpty then pySplitAux t [] else acc.reverse :: pySplitAux t []
    else pySplitAux t (c :: acc)

/-- Python `str.split()` with no separator: split on whitespace runs,
discarding empty tokens. -/
def pySplit (l : List Char) : List (List Char) := pySplitAux l []

/-- `top_keywords` of `src/junior.py` (lines 23-26): split the normalized
title, drop stop words and tokens of length ≤ 2, keep the first `k`, join
with hyphens; if nothing survives, the first 40 characters of the normalized
title. -/
def top_keywords (title : String) (k : Nat := 6) : String :=
  let norm := (normalize_text title).data
  let ws := ((pySplit norm).filter
      (fun w => !(STOPWORDS.contains (String.mk w)) && decide (2 < w.length))).take k
  if ws.isEmpty then String.mk (norm.take 40) else String.mk (List.intercalate ['-'] ws)

/-- `similarity_key` of `src/junior.py` (lines 28-29). -/
def similarity_key (category title : String) : String :=
  category ++ ":" ++ top_keywords title

/-- A filtered candidate: a product record with the fields that `main` adds
on lines 285-287. -/
structure Candidate extends ProductRecord where
  category : String
  product_id : String
  similarity_key : String
deriving DecidableEq, Repr

/-- Python truthiness of `p.get("sold")` on line 274: `None` and `0` are
falsy. -/
def soldTruthy : Option Int → Bool
  | none => false
  | some v => v != 0

/-- The rating rejection test of line 276:
`p.get("rating") is not None and p["rating"] < rating_min`. -/
def ratingRejects (ratingMin : ℚ) : Option ℚ → Bool
  | none => false
  | some r => decide (r < ratingMin)

/-- The candidate filter of `main`, lines 273-284: a record survives the four
`continue`s iff its sold is truthy and not below `sold_min`, its rating (when
present) is not below `rating_min`, its url is not an already-used id, and its
similarity key is not already used. -/
def passes (soldMin : Int) (ratingMin : ℚ) (usedIds usedKeys : List String) (cat : String)
    (p : ProductRecord) : Bool :=
  soldTruthy p.sold && !(decide (p.sold.getD 0 < soldMin)) &&
    !(ratingRejects ratingMin p.rating) &&
    !(usedIds.contains p.url) &&
    !(usedKeys.contains (similarity_key cat p.title))

/-- The candidate-building loop of lines 272-288: filter the raw results and
attach `category`, `product_id` (the url) and `similarity_key`. -/
def mkCandidates (soldMin : Int) (ratingMin : ℚ) (usedIds usedKeys : List String) (cat : String)
    (raw : List ProductRecord) : List Candidate :=
  (raw.filter (passes soldMin ratingMin usedIds usedKeys cat)).map fun p =>
    { toProductRecord := p, category := cat, product_id := p.url,
      similarity_key := similarity_key cat p.title }

/-- The sort key of line 291: `x.get("sold", 0)`. -/
def soldKey (c : Candidate) : Int := c.sold.getD 0

/-- Stable insertion for descending sort by `soldKey`: skip past strictly
greater keys, so that ties keep their original order. -/
def insertDesc (c : Candidate) : List Candidate → List Candidate
  | [] => [c]
  | d :: ds => if soldKey c < soldKey d then d :: insertDesc c ds else c :: d :: ds

/-- `candidates.sort(key=..., reverse=True)` of line 291: Python's sort is
stable, and a stable descending sort by a total key is unique, so this
insertion sort computes it. -/
def sortBySoldDesc (l : List Candidate) : List Candidate := l.foldr insertDesc []

/-- The pick loop of lines 293-299: walk the sorted candidates, stop at
`per_day` picks, and skip any candidate whose similarity key is already among
the picks of this same run. -/
def selectDiverse (perDay : Int) : List Candidate → List Candidate → List Candidate
  | picks, [] => picks
  | picks, c :: cs =>
    if (picks.length : Int) ≥ perDay then picks
    else if picks.any (fun q => q.similarity_key == c.similarity_key) then
      selectDiverse perDay picks cs
    else selectDiverse perDay (picks ++ [c]) cs

/-- The category loop of lines 265-299: for each category in order, stop when
the batch is full, otherwise harvest `shopee_search(f"{cat} shopee")` (the
`results` collaborator), filter, sort, and pick. -/
def runCategories (perDay soldMin : Int) (ratingMin : ℚ) (usedIds usedKeys : List String)
    (results : String → List ProductRecord) :
    List Candidate → List String → List Candidate
  | picks, [] => picks
  | picks, cat :: cats =>
    if (picks.length : Int) ≥ perDay then picks
    else
      let cands := mkCandidates soldMin ratingMin usedIds usedKeys cat (results (cat ++ " shopee"))
      runCategories perDay soldMin ratingMin usedIds usedKeys results
        (selectDiverse perDay picks (sortBySoldDesc cands)) cats

/-- The persisted selection state (`state.json`): `day_index`,
`used_product_ids`, `used_similarity_keys`.  The JSON arrays are lists here;
only membership matters, mirroring the Python `set`s. -/
structure SelState where
  day_index : Int
  used_product_ids : List String
  used_similarity_keys : List String
deriving DecidableEq, Repr

/-- Outcome of one run of `main`: the completed-project early return of lines
253-255, the insufficient-inventory `RuntimeError` of lines 301-302 (carrying
the target and found counts that the message reports), or success with the
picks and the state persisted on lines 347-351. -/
inductive RunResult where
  | finished : RunResult
  | insufficient (target : Int) (found : Nat) : RunResult
  | success (picks : List Candidate) (state : SelState) : RunResult
deriving DecidableEq, Repr

/-- `set.add` on the state sets, lines 332-333 (membership-preserving; the
order of `list(used_ids)` is unspecified in Python, only membership is
meaningful). -/
def insertNew (l : List String) (x : String) : List String :=
  if l.contains x then l else l ++ [x]

/-- The selection part of `main` (lines 237-351), with I/O collaborators
abstracted: the loaded state is `s`, the harvester is `results`, and copy
generation / sheet output are outside the model.  `save_state` runs only on
the success path, so only `RunResult.success` carries a new state. -/
def runMain (totalDays perDay soldMin : Int) (ratingMin : ℚ) (categories : List String)
    (results : String → List ProductRecord) (s : SelState) : RunResult :=
  let dayIndex := s.day_index + 1
  if dayIndex > totalDays then .finished
  else
    let picks := runCategories perDay soldMin ratingMin s.used_product_ids
      s.used_similarity_keys results [] categories
    if (picks.length : Int) < perDay then .insufficient perDay picks.length
    else
      .success picks
        { day_index := dayIndex
          used_product_ids :=
            picks.foldl (fun acc c => insertNew acc c.product_id) s.used_product_ids
          used_similarity_keys :=
            picks.foldl (fun acc c => insertNew acc c.similarity_key) s.used_similarity_keys }

/-- The state on disk after a run that started from `s`: only a successful
run persists a new state (the early return and the raised `RuntimeError` both
skip `save_state`). -/
def persistedState (s : SelState) : RunResult → SelState
  | .success _ s' => s'
  | _ => s

/-- Concrete fixture records used by the witnesses below. -/
def sampleA : ProductRecord := ⟨"aaa", "u1", "R$ 9,90", some 5, none, none⟩

/-- Second fixture record, with a different url and title. -/
def sampleB : ProductRecord := ⟨"bbb", "u2", "R$ 9,90", some 5, none, none⟩

/-- Fixture record with absent sold count. -/
def sampleNoSold : ProductRecord := ⟨"ttt", "u3", "R$ 9,90", none, some (mkRat 49 10), none⟩

/-- Fixture record whose sold count parsed to a genuine zero. -/
def sampleZeroSold : ProductRecord := ⟨"zzz", "u4", "R$ 9,90", some 0, none, none⟩

/-! ### Helper lemmas -/

theorem char_toNat_ofNat (n : Nat) (h : n.isValidChar) : (Char.ofNat n).toNat = n := by
  simp only [Char.ofNat, h, dif_pos, Char.ofNatAux, Char.toNat]
  simp [UInt32.toNat, BitVec.toNat_ofNatLt]

theorem toLower_toLower (c : Char) : c.toLower.toLower = c.toLower := by
  by_cases h : c.toNat ≥ 65 ∧ c.toNat ≤ 90
  · have hv : (c.toNat + 32).isValidChar := Or.inl (by omega)
    have h1 : c.toLower = Char.ofNat (c.toNat + 32) := by
      simp [Char.toLower, h]
    have h2 : (Char.ofNat (c.toNat + 32)).toNat = c.toNat + 32 := char_toNat_ofNat _ hv
    rw [h1]
    simp only [Char.toLower, h2]
    rw [if_neg (by omega)]
  · simp only [Char.toLower]
    rw [if_neg h, if_neg h]

theorem isDigit_toNat_bounds (c : Char) (h : c.isDigit = true) :
    48 ≤ c.toNat ∧ c.toNat ≤ 57 := by
  simp [Char.isDigit] at h
  obtain ⟨h1, h2⟩ := h
  refine ⟨?_, ?_⟩
  · have h3 := BitVec.le_def.mp (UInt32.le_def.mp h1)
    simpa [Char.toNat, UInt32.toNat] using h3
  · have h3 := BitVec.le_def.mp (UInt32.le_def.mp h2)
    simpa [Char.toNat, UInt32.toNat] using h3

/-! ### Claim theorems -/

/-- C8: the quantity parser accepts localized shorthand: `parse_int_like
"1,2k"` is `1200`, `parse_int_like "78,7 mil"` is `78700`, and an unparseable
input such as `"garbage"` yields `none`.  (The function is a total Lean
definition, so the "never throws" part of the claim holds by construction:
every parse failure is the value `none`.) -/
theorem parse_int_like_spec_values :
    parse_int_like "1,2k" = some 1200 ∧ parse_int_like "78,7 mil" = some 78700 ∧
      parse_int_like "garbage" = none := by
  decide

/-- C1 (code bug): on a page whose text is exactly `"300 vendidos"` (or
`"78,7 mil vendidos"`) the extractor's sold field is `none`, not the parsed
quantity, even though the quantity parser itself parses the quantity: the
regex match `group(0)` ends in the literal `vendid`, the source then strips
the strings `"vendidos"`/`"vendido"` which never occur in `group(0)`, and the
residual `vendid` makes `float()` fail inside `parse_int_like`. -/
theorem sold_detection_always_fails_on_claimed_examples :
    (shopee_product_details (some "Produto") "300 vendidos" "u").sold = none ∧
      (shopee_product_details (some "Produto") "78,7 mil vendidos" "u").sold = none ∧
      parse_int_like "300" = some 300 ∧
      parse_int_like "78,7 mil" = some 78700 := by
  decide

/-- C10: a candidate whose sold field is a present, genuine `0` is rejected by
the candidate filter for every threshold, including `sold_min = 0`, because
line 274 tests `not p.get("sold")`, which is Python truthiness: `0` behaves
exactly like `None`. -/
theorem sold_zero_always_rejected (soldMin : Int) (ratingMin : ℚ)
    (usedIds usedKeys : List String) (cat : String) (p : ProductRecord)
    (h : p.sold = some 0) :
    passes soldMin ratingMin usedIds usedKeys cat p = false := by
  simp [passes, soldTruthy, h]

/-- Witness for C10: the zero-sold fixture is rejected even at `sold_min = 0`. -/
theorem sold_zero_always_rejected_witness :
    passes 0 (mkRat 9 2) [] [] "Pets" sampleZeroSold = false :=
  sold_zero_always_rejected 0 (mkRat 9 2) [] [] "Pets" sampleZeroSold rfl

/-- C2: the candidate filter (lines 273-284) rejects a record whose sold is
absent, rejects one whose sold is below `sold_min`, rejects one whose rating
is present and below `rating_min`, while an absent rating never triggers the
rating rejection; consequently every candidate in the filtered output has a
present sold count that is at least `sold_min`. -/
theorem candidate_filter_thresholds (soldMin : Int) (ratingMin : ℚ)
    (usedIds usedKeys : List String) (cat : String) (p : ProductRecord) :
    (p.sold = none → passes soldMin ratingMin usedIds usedKeys cat p = false) ∧
      (∀ v : Int, p.sold = some v → v < soldMin →
        passes soldMin ratingMin usedIds usedKeys cat p = false) ∧
      (∀ r : ℚ, p.rating = some r → r < ratingMin →
        passes soldMin ratingMin usedIds usedKeys cat p = false) ∧
      ratingRejects ratingMin none = false ∧
      (∀ raw : List ProductRecord, ∀ q ∈ mkCandidates soldMin ratingMin usedIds usedKeys cat raw,
        ∃ v : Int, q.sold = some v ∧ soldMin ≤ v) := by
  refine ⟨?_, ?_, ?_, rfl, ?_⟩
  · intro h
    simp [passes, soldTruthy, h]
  · intro v hv hlt
    simp [passes, hv, hlt]
  · intro r hr hlt
    simp [passes, ratingRejects, hr, hlt]
  · intro raw q hq
    simp only [mkCandidates, List.mem_map, List.mem_filter] at hq
    obtain ⟨p', ⟨_, hpass⟩, rfl⟩ := hq
    simp only [passes, Bool.and_eq_true] at hpass
    obtain ⟨⟨⟨⟨hs, hmin⟩, _⟩, _⟩, _⟩ := hpass
    cases hsold : p'.sold with
    | none => rw [hsold] at hs; simp [soldTruthy] at hs
    | some v =>
      refine ⟨v, rfl, ?_⟩
      rw [hsold] at hmin
      simp [soldTruthy] at hmin
      omega

/-- Witness for C2: the fixture with absent sold is rejected, a below-threshold
sold is rejected, a below-threshold rating is rejected, and an absent rating
does not trigger the rating test. -/
theorem candidate_filter_thresholds_witness :
    passes 100 (mkRat 9 2) [] [] "Pets" sampleNoSold = false ∧
      passes 100 (mkRat 9 2) [] [] "Pets" sampleA = false ∧
      ratingRejects (mkRat 9 2) none = false := by
  refine ⟨?_, ?_, ?_⟩
  · exact (candidate_filter_thresholds 100 (mkRat 9 2) [] [] "Pets" sampleNoSold).1 rfl
  · exact (candidate_filter_thresholds 100 (mkRat 9 2) [] [] "Pets" sampleA).2.1 5 rfl
      (by decide)
  · exact (candidate_filter_thresholds 100 (mkRat 9 2) [] [] "Pets" sampleA).2.2.2.1

theorem ratingAt_bounds (l : List Char) (q : ℚ) (h : ratingAt l = some q) :
    0 ≤ q ∧ q ≤ 99 / 10 := by
  unfold ratingAt at h
  split at h
  case _ c1 c2 c3 r =>
    split at h
    case isTrue hd =>
      split at h
      case _ r3 =>
        split at h
        case _ =>
          simp only [Bool.and_eq_true] at hd
          obtain ⟨⟨hd1, _⟩, hd2⟩ := hd
          obtain ⟨_, hb1⟩ := isDigit_toNat_bounds c1 hd1
          obtain ⟨_, hb2⟩ := isDigit_toNat_bounds c3 hd2
          injection h with h
          subst h
          have hn : 10 * digitVal c1 + digitVal c3 ≤ 99 := by
            unfold digitVal; omega
          rw [Rat.mkRat_eq_div]
          constructor
          · positivity
          · push_cast
            have : ((10 * digitVal c1 + digitVal c3 : Nat) : ℚ) ≤ 99 := by
              exact_mod_cast hn
            push_cast at this
            linarith
        case _ => exact absurd h (by simp)
      case _ => exact absurd h (by simp)
    case isFalse => exact absurd h (by simp)
  case _ => exact absurd h (by simp)

theorem ratingFind_bounds (l : List Char) (q : ℚ) (h : ratingFind l = some q) :
    0 ≤ q ∧ q ≤ 99 / 10 := by
  induction l with
  | nil => exact absurd h (by simp [ratingFind])
  | cons c t ih =>
    rw [ratingFind] at h
    cases hm : ratingAt (c :: t) with
    | some q' =>
      rw [hm] at h
      injection h with h
      subst h
      exact ratingAt_bounds _ _ hm
    | none =>
      rw [hm] at h
      exact ih h

/-- C4 (amended): the extractor's rating is either absent or a value of the
form `d.d` for decimal digits `d`, hence in the interval [0, 9.9]; the
interval [0, 5.0] of the claim is not enforced anywhere in the code (see the
counterexample). -/
theorem rating_absent_or_bounded (t : Option String) (pt u : String) :
    (shopee_product_details t pt u).rating = none ∨
      ∃ r : ℚ, (shopee_product_details t pt u).rating = some r ∧ 0 ≤ r ∧ r ≤ 99 / 10 := by
  cases h : ratingFind (pt.data.map Char.toLower) with
  | none =>
    left
    simp [shopee_product_details, h]
  | some q =>
    right
    exact ⟨q, by simp [shopee_product_details, h], ratingFind_bounds _ _ h⟩

/-- Counterexample to C4 as stated: a page whose text is `"9.9 de 5"` gets the
rating 9.9, which is outside [0.0, 5.0] (the `\d.\d` pattern accepts any
digits, and no clamp exists). -/
theorem rating_range_counterexample :
    (shopee_product_details (some "Produto") "9.9 de 5" "u").rating = some (99 / 10 : ℚ) ∧
      ¬ ((99 / 10 : ℚ) ≤ 5) := by
  constructor
  · have h : (shopee_product_details (some "Produto") "9.9 de 5" "u").rating
        = some (mkRat 99 10) := by decide
    rw [h, Rat.mkRat_eq_div]
    norm_num
  · norm_num

theorem selectDiverse_pairwise (perDay : Int) (cs : List Candidate) :
    ∀ picks : List Candidate,
      picks.Pairwise (fun a b => a.similarity_key ≠ b.similarity_key) →
      (selectDiverse perDay picks cs).Pairwise
        (fun a b => a.similarity_key ≠ b.similarity_key) := by
  induction cs with
  | nil => intro picks h; exact h
  | cons c cs ih =>
    intro picks h
    simp only [selectDiverse]
    split
    · exact h
    · split
      · exact ih _ h
      next hany =>
        apply ih
        rw [List.pairwise_append]
        refine ⟨h, List.pairwise_singleton _ _, ?_⟩
        intro a ha b hb
        simp only [List.mem_singleton] at hb
        subst hb
        have hall := List.any_eq_false.mp (Bool.of_not_eq_true hany)
        have := hall a ha
        simpa using this

theorem runCategories_pairwise (perDay soldMin : Int) (ratingMin : ℚ)
    (usedIds usedKeys : List String) (results : String → List ProductRecord)
    (cats : List String) :
    ∀ picks : List Candidate,
      picks.Pairwise (fun a b => a.similarity_key ≠ b.similarity_key) →
      (runCategories perDay soldMin ratingMin usedIds usedKeys results picks cats).Pairwise
        (fun a b => a.similarity_key ≠ b.similarity_key) := by
  induction cats with
  | nil => intro picks h; exact h
  | cons cat cats ih =>
    intro picks h
    simp only [runCategories]
    split
    · exact h
    · exact ih _ (selectDiverse_pairwise _ _ _ h)

/-- C6: within one run, no two picks of the output batch share a
`similarity_key`: the pick loop accepts a sorted candidate only when no
already-accepted pick of the same run has an equal key, and the accumulated
batch is threaded through every category. -/
theorem intra_run_similarity_distinct (perDay soldMin : Int) (ratingMin : ℚ)
    (usedIds usedKeys : List String) (results : String → List ProductRecord)
    (cats : List String) :
    (runCategories perDay soldMin ratingMin usedIds usedKeys results [] cats).Pairwise
      (fun a b => a.similarity_key ≠ b.similarity_key) :=
  runCategories_pairwise perDay soldMin ratingMin usedIds usedKeys results cats []
    List.Pairwise.nil

/-- C3: when, with the day cap not yet reached, scanning all categories
accumulates fewer than `per_day` picks, the run raises the
insufficient-inventory error carrying the target and the found count, and the
persisted state is exactly the state from before the run. -/
theorem insufficient_inventory_fails_without_persisting
    (totalDays perDay soldMin : Int) (ratingMin : ℚ) (categories : List String)
    (results : String → List ProductRecord) (s : SelState)
    (hday : ¬ s.day_index + 1 > totalDays)
    (hshort : ((runCategories perDay soldMin ratingMin s.used_product_ids
        s.used_similarity_keys results [] categories).length : Int) < perDay) :
    runMain totalDays perDay soldMin ratingMin categories results s =
      .insufficient perDay (runCategories perDay soldMin ratingMin s.used_product_ids
        s.used_similarity_keys results [] categories).length ∧
    persistedState s (runMain totalDays perDay soldMin ratingMin categories results s) = s := by
  have hrun : runMain totalDays perDay soldMin ratingMin categories results s =
      .insufficient perDay (runCategories perDay soldMin ratingMin s.used_product_ids
        s.used_similarity_keys results [] categories).length := by
    simp only [runMain]
    rw [if_neg hday, if_pos hshort]
  exact ⟨hrun, by rw [hrun]; rfl⟩

/-- Witness for C3: with one category and a harvester returning nothing,
`per_day = 3` yields the error reporting 0 found picks and an unchanged
state. -/
theorem insufficient_inventory_witness :
    runMain 30 3 100 (mkRat 9 2) ["Pets"] (fun _ => []) ⟨0, [], []⟩ =
        .insufficient 3 0 ∧
      persistedState ⟨0, [], []⟩
        (runMain 30 3 100 (mkRat 9 2) ["Pets"] (fun _ => []) ⟨0, [], []⟩) = ⟨0, [], []⟩ := by
  have h := insufficient_inventory_fails_without_persisting 30 3 100 (mkRat 9 2) ["Pets"]
    (fun _ => []) ⟨0, [], []⟩ (by decide) (by decide)
  exact ⟨h.1, h.2⟩

theorem mem_insertDesc {q c : Candidate} : ∀ {l : List Candidate},
    q ∈ insertDesc c l → q = c ∨ q ∈ l := by
  intro l
  induction l with
  | nil =>
    intro h
    simp only [insertDesc, List.mem_singleton] at h
    exact Or.inl h
  | cons d ds ih =>
    intro h
    simp only [insertDesc] at h
    split at h
    · rcases List.mem_cons.mp h with h1 | h1
      · exact Or.inr (h1 ▸ List.mem_cons_self d ds)
      · rcases ih h1 with h2 | h2
        · exact Or.inl h2
        · exact Or.inr (List.mem_cons_of_mem d h2)
    · rcases List.mem_cons.mp h with h1 | h1
      · exact Or.inl h1
      · exact Or.inr h1

theorem mem_sortBySoldDesc {q : Candidate} : ∀ {l : List Candidate},
    q ∈ sortBySoldDesc l → q ∈ l := by
  intro l
  induction l with
  | nil => intro h; exact absurd h (by simp [sortBySoldDesc])
  | cons a t ih =>
    intro h
    have h' : q ∈ insertDesc a (sortBySoldDesc t) := h
    rcases mem_insertDesc h' with h1 | h1
    · exact h1 ▸ List.mem_cons_self a t
    · exact List.mem_cons_of_mem a (ih h1)

theorem selectDiverse_mem (perDay : Int) : ∀ (cs picks : List Candidate) {q : Candidate},
    q ∈ selectDiverse perDay picks cs → q ∈ picks ∨ q ∈ cs := by
  intro cs
  induction cs with
  | nil => intro picks q h; exact Or.inl h
  | cons c cs ih =>
    intro picks q h
    simp only [selectDiverse] at h
    split at h
    · exact Or.inl h
    · split at h
      · rcases ih _ h with h1 | h1
        · exact Or.inl h1
        · exact Or.inr (List.mem_cons_of_mem c h1)
      · rcases ih _ h with h1 | h1
        · rcases List.mem_append.mp h1 with h2 | h2
          · exact Or.inl h2
          · simp only [List.mem_singleton] at h2
            exact Or.inr (h2 ▸ List.mem_cons_self c cs)
        · exact Or.inr (List.mem_cons_of_mem c h1)

theorem mkCandidates_facts {soldMin : Int} {ratingMin : ℚ} {usedIds usedKeys : List String}
    {cat : String} {raw : List ProductRecord} {q : Candidate}
    (h : q ∈ mkCandidates soldMin ratingMin usedIds usedKeys cat raw) :
    q.product_id = q.url ∧ usedIds.contains q.url = false ∧
      usedKeys.contains q.similarity_key = false := by
  simp only [mkCandidates, List.mem_map, List.mem_filter] at h
  obtain ⟨p, ⟨_, hpass⟩, rfl⟩ := h
  simp only [passes, Bool.and_eq_true] at hpass
  obtain ⟨⟨⟨⟨_, _⟩, _⟩, hid⟩, hkey⟩ := hpass
  exact ⟨rfl, by simpa using hid, by simpa using hkey⟩

theorem runCategories_facts (perDay soldMin : Int) (ratingMin : ℚ)
    (uIds uKeys : List String) (results : String → List ProductRecord) :
    ∀ (cats : List String) (picks : List Candidate),
      (∀ q ∈ picks, q.product_id = q.url ∧ uIds.contains q.url = false) →
      ∀ q ∈ runCategories perDay soldMin ratingMin uIds uKeys results picks cats,
        q.product_id = q.url ∧ uIds.contains q.url = false := by
  intro cats
  induction cats with
  | nil => intro picks hp q hq; exact hp q hq
  | cons cat cats ih =>
    intro picks hp q hq
    simp only [runCategories] at hq
    split at hq
    · exact hp q hq
    · refine ih _ ?_ q hq
      intro x hx
      rcases selectDiverse_mem _ _ _ hx with h1 | h1
      · exact hp x h1
      · have h3 := mkCandidates_facts (mem_sortBySoldDesc h1)
        exact ⟨h3.1, h3.2.1⟩

theorem success_inversion {totalDays perDay soldMin : Int} {ratingMin : ℚ}
    {categories : List String} {results : String → List ProductRecord}
    {s s' : SelState} {p : List Candidate}
    (h : runMain totalDays perDay soldMin ratingMin categories results s = .success p s') :
    p = runCategories perDay soldMin ratingMin s.used_product_ids s.used_similarity_keys
        results [] categories ∧
      s'.used_product_ids =
        p.foldl (fun acc c => insertNew acc c.product_id) s.used_product_ids := by
  simp only [runMain] at h
  split at h
  · exact absurd h (by simp)
  · split at h
    · exact absurd h (by simp)
    · injection h with h1 h2
      subst h1
      exact ⟨rfl, by rw [← h2]⟩

theorem foldl_insertNew_sub {p : List Candidate} : ∀ {acc : List String} {y : String},
    y ∈ acc → y ∈ p.foldl (fun acc c => insertNew acc c.product_id) acc := by
  induction p with
  | nil => intro acc y h; exact h
  | cons a t ih =>
    intro acc y h
    apply ih
    show y ∈ insertNew acc a.product_id
    unfold insertNew
    split
    · exact h
    · exact List.mem_append_left _ h

theorem foldl_insertNew_mem {c : Candidate} : ∀ {p : List Candidate} {acc : List String},
    c ∈ p → c.product_id ∈ p.foldl (fun acc c => insertNew acc c.product_id) acc := by
  intro p
  induction p with
  | nil => intro acc h; exact absurd h (by simp)
  | cons a t ih =>
    intro acc h
    rcases List.mem_cons.mp h with h1 | h1
    · subst h1
      rw [List.foldl_cons]
      apply foldl_insertNew_sub
      show c.product_id ∈ insertNew acc c.product_id
      unfold insertNew
      split
      next hc =>
        exact List.elem_iff.mp hc
      · exact List.mem_append_right _ (List.mem_singleton_self _)
    · exact ih h1

/-- C5: two successful runs against the same state store never pick the same
url: the first run folds every pick's url into the persisted
`used_product_ids`, any later run starts from a state whose used set contains
them (given the store only grows in between), and the candidate filter of the
later run rejects every record whose url is in the used set before selection. -/
theorem cross_run_url_dedup
    (td1 pd1 sm1 td2 pd2 sm2 : Int) (rm1 rm2 : ℚ) (cats1 cats2 : List String)
    (f1 f2 : String → List ProductRecord) (s1 s1' s2 s2' : SelState)
    (p1 p2 : List Candidate)
    (h1 : runMain td1 pd1 sm1 rm1 cats1 f1 s1 = .success p1 s1')
    (hmono : ∀ u, u ∈ s1'.used_product_ids → u ∈ s2.used_product_ids)
    (h2 : runMain td2 pd2 sm2 rm2 cats2 f2 s2 = .success p2 s2') :
    ∀ q1 ∈ p1, ∀ q2 ∈ p2, q1.url ≠ q2.url := by
  obtain ⟨hp1, hs1⟩ := success_inversion h1
  obtain ⟨hp2, _⟩ := success_inversion h2
  intro q1 hq1 q2 hq2 heq
  have hf1 := runCategories_facts pd1 sm1 rm1 s1.used_product_ids s1.used_similarity_keys f1
    cats1 [] (by simp) q1 (hp1 ▸ hq1)
  have hin : q1.product_id ∈ s1'.used_product_ids := by
    rw [hs1]
    exact foldl_insertNew_mem hq1
  have hin2 : q1.url ∈ s2.used_product_ids := hmono _ (hf1.1 ▸ hin)
  have hf2 := runCategories_facts pd2 sm2 rm2 s2.used_product_ids s2.used_similarity_keys f2
    cats2 [] (by simp) q2 (hp2 ▸ hq2)
  rw [heq] at hin2
  have hc : s2.used_product_ids.contains q2.url = true := by
    simpa [List.contains] using List.elem_iff.mpr hin2
  rw [hf2.2] at hc
  exact Bool.false_ne_true hc

/-- Witness for C5: a first run picks url `u1`, a second run starting from the
persisted state picks url `u2`, and the theorem yields `u1 ≠ u2`. -/
theorem cross_run_url_dedup_witness :
    (⟨sampleA, "c", "u1", "c:aaa"⟩ : Candidate).url ≠
      (⟨sampleB, "c", "u2", "c:bbb"⟩ : Candidate).url :=
  cross_run_url_dedup 30 1 1 30 1 1 (mkRat 0 1) (mkRat 0 1) ["c"] ["c"]
    (fun _ => [sampleA]) (fun _ => [sampleB])
    ⟨0, [], []⟩ ⟨1, ["u1"], ["c:aaa"]⟩ ⟨1, ["u1"], ["c:aaa"]⟩ ⟨2, ["u1", "u2"], ["c:aaa", "c:bbb"]⟩
    [⟨sampleA, "c", "u1", "c:aaa"⟩] [⟨sampleB, "c", "u2", "c:bbb"⟩]
    (by decide) (fun u hu => hu) (by decide)
    ⟨sampleA, "c", "u1", "c:aaa"⟩ (by decide)
    ⟨sampleB, "c", "u2", "c:bbb"⟩ (by decide)

theorem matchQtyAt_none_of_head_not_digit (ind : List Char) (c : Char) (t : List Char)
    (h : c.isDigit = false) : matchQtyAt ind (c :: t) = none := by
  unfold matchQtyAt
  simp [List.takeWhile_cons, h]

theorem qtyFindFuel_none_of_no_digit (ind rm1 rm2 : List Char) :
    ∀ (fuel : Nat) (l : List Char) (acc : Option Int),
      (∀ c ∈ l, c.isDigit = false) → qtyFindFuel ind rm1 rm2 acc fuel l = acc := by
  intro fuel
  induction fuel with
  | zero => intro l acc _; cases l <;> rfl
  | succ fuel ih =>
    intro l acc h
    cases l with
    | nil => rfl
    | cons c t =>
      rw [qtyFindFuel, matchQtyAt_none_of_head_not_digit ind c t (h c (by simp))]
      exact ih t acc fun x hx => h x (List.mem_cons_of_mem c hx)

theorem ratingAt_none_of_no_digit (l : List Char) (h : ∀ c ∈ l, c.isDigit = false) :
    ratingAt l = none := by
  match l with
  | [] => rfl
  | [c] => rfl
  | [c, d] => rfl
  | c1 :: c2 :: c3 :: r =>
    have h1 := h c1 (by simp)
    simp [ratingAt, h1]

theorem ratingFind_none_of_no_digit : ∀ (l : List Char),
    (∀ c ∈ l, c.isDigit = false) → ratingFind l = none := by
  intro l
  induction l with
  | nil => intro _; rfl
  | cons c t ih =>
    intro h
    rw [ratingFind, ratingAt_none_of_no_digit (c :: t) h]
    exact ih fun x hx => h x (List.mem_cons_of_mem c hx)

theorem priceAt_none_of_not_head (l : List Char)
    (h : "r$".data.isPrefixOf l = false) : priceAt l = none := by
  match l with
  | [] => rfl
  | [c] => rfl
  | c0 :: c1 :: r =>
    have hc : (c0 == 'r' && c1 == '$') = false := by
      by_cases h0 : c0 = 'r' <;> by_cases h1 : c1 = '$'
      · subst h0; subst h1; simp [List.isPrefixOf] at h
      · simp [h1]
      · simp [h0]
      · simp [h0]
    simp [priceAt, hc]

theorem priceFind_none_without_marker : ∀ (l : List Char),
    hasInfix "r$".data l = false → priceFind l = none := by
  intro l
  induction l with
  | nil => intro _; rfl
  | cons c t ih =>
    intro h
    rw [hasInfix] at h
    simp only [Bool.or_eq_false_iff] at h
    rw [priceFind, priceAt_none_of_not_head (c :: t) h.1]
    exact ih h.2

/-- C7 (amended): a missing signal propagates as absence for `sold`, `rating`
and `reviews` (`None`), and as the declared sentinels for `price` (`"R$ --"`)
and for `title` (`"Produto Shopee"` — the amendment: the source gives the
title a sentinel too, line 138, instead of the absence the claim states).
Formally: on a page text without a single digit none of the three numeric
detectors can match, so all three fields are `none`; without the currency
marker the price is the sentinel; and an empty cleaned title yields the title
sentinel. -/
theorem missing_signal_absence (t : Option String) (pt u : String) :
    ((∀ c ∈ pt.data.map Char.toLower, c.isDigit = false) →
        (shopee_product_details t pt u).sold = none ∧
        (shopee_product_details t pt u).reviews = none ∧
        (shopee_product_details t pt u).rating = none) ∧
      (hasInfix "r$".data (pt.data.map Char.toLower) = false →
        (shopee_product_details t pt u).price = "R$ --") ∧
      (pyStrip (stripSite ((t.getD "").data)) = [] →
        (shopee_product_details t pt u).title = "Produto Shopee") := by
  refine ⟨?_, ?_, ?_⟩
  · intro h
    refine ⟨?_, ?_, ?_⟩
    · simp only [shopee_product_details, soldDetect]
      exact qtyFindFuel_none_of_no_digit _ _ _ _ _ _ h
    · simp only [shopee_product_details, reviewsDetect]
      exact qtyFindFuel_none_of_no_digit _ _ _ _ _ _ h
    · simp only [shopee_product_details]
      exact ratingFind_none_of_no_digit _ h
  · intro h
    simp only [shopee_product_details]
    rw [priceFind_none_without_marker _ h]
    rfl
  · intro h
    simp only [shopee_product_details, h]
    rfl

/-- Witness for C7: the empty page with no title yields absence for the three
numeric fields and the two sentinels. -/
theorem missing_signal_absence_witness :
    (shopee_product_details none "" "x").sold = none ∧
      (shopee_product_details none "" "x").reviews = none ∧
      (shopee_product_details none "" "x").rating = none ∧
      (shopee_product_details none "" "x").price = "R$ --" ∧
      (shopee_product_details none "" "x").title = "Produto Shopee" := by
  have h := missing_signal_absence none "" "x"
  have ha := h.1 (by simp)
  exact ⟨ha.1, ha.2.1, ha.2.2, h.2.1 (by decide), h.2.2 (by decide)⟩

/-- Counterexample to C7 as stated: on a page with no `<title>` tag the
extractor's title is the fabricated constant `"Produto Shopee"`, not the
absence (the empty string of line 103) that the claim requires for every
field other than price. -/
theorem title_fallback_counterexample :
    (shopee_product_details none "" "u").title = "Produto Shopee" ∧
      "Produto Shopee" ≠ "" := by
  decide

theorem isPySpace_not_word {c : Char} (h : isPySpace c = true) : isWordChar c = false := by
  simp only [isPySpace, Bool.or_eq_true, beq_iff_eq] at h
  rcases h with ((((h | h) | h) | h) | h) | h <;> subst h <;> decide

theorem word_not_pySpace {c : Char} (h : isWordChar c = true) : isPySpace c = false := by
  cases hs : isPySpace c
  · rfl
  · rw [isPySpace_not_word hs] at h
    exact absurd h (by simp)

theorem stripPunct_lower_chars (s : List Char) :
    ∀ c ∈ stripPunct (s.map Char.toLower),
      (isWordChar c = true ∧ c.toLower = c) ∨ isPySpace c = true := by
  intro c hc
  simp only [stripPunct, List.mem_map] at hc
  obtain ⟨b, hb, rfl⟩ := hc
  obtain ⟨a, _, rfl⟩ := hb
  by_cases hw : isWordChar a.toLower = true
  · rw [if_pos (by simp [hw])]
    exact Or.inl ⟨hw, toLower_toLower a⟩
  · by_cases hs : isPySpace a.toLower = true
    · rw [if_pos (by simp [hs])]
      exact Or.inr hs
    · rw [if_neg (by simp [hw, hs])]
      exact Or.inr (by decide)

theorem collapseSpaces_chars : ∀ l : List Char,
    (∀ c ∈ l, (isWordChar c = true ∧ c.toLower = c) ∨ isPySpace c = true) →
    ∀ c ∈ collapseSpaces l, (isWordChar c = true ∧ c.toLower = c) ∨ c = ' ' := by
  intro l
  induction l using collapseSpaces.induct with
  | case1 => intro _ c hc; exact absurd hc (by simp [collapseSpaces])
  | case2 a =>
    intro h c hc
    simp only [collapseSpaces, List.mem_singleton] at hc
    subst hc
    by_cases hs : isPySpace a = true
    · rw [if_pos hs]
      exact Or.inr rfl
    · rw [if_neg hs]
      rcases h a (by simp) with h1 | h1
      · exact Or.inl h1
      · exact absurd h1 hs
  | case3 a d cs hcond ih =>
    intro h c hc
    simp only [collapseSpaces, if_pos hcond] at hc
    exact ih (fun x hx => h x (List.mem_cons_of_mem a hx)) c hc
  | case4 a d cs hcond ih =>
    intro h c hc
    simp only [collapseSpaces, if_neg hcond] at hc
    rcases List.mem_cons.mp hc with h1 | h1
    · subst h1
      by_cases hs : isPySpace a = true
      · rw [if_pos hs]
        exact Or.inr rfl
      · rw [if_neg hs]
        rcases h a (by simp) with h2 | h2
        · exact Or.inl h2
        · exact absurd h2 hs
    · exact ih (fun x hx => h x (List.mem_cons_of_mem a hx)) c h1

theorem collapseSpaces_head_eq (l : List Char) (c : Char) (h : l.head? = some c)
    (hc : isPySpace c = false) : (collapseSpaces l).head? = some c := by
  cases l with
  | nil => simp at h
  | cons a t =>
    simp only [List.head?_cons, Option.some.injEq] at h
    subst h
    cases t with
    | nil => simp [collapseSpaces, hc]
    | cons d cs =>
      rw [collapseSpaces, if_neg (by simp [hc])]
      simp [hc]

theorem collapseSpaces_chain : ∀ l : List Char,
    List.Chain' (fun a b => ¬(isPySpace a = true ∧ isPySpace b = true)) (collapseSpaces l) := by
  intro l
  induction l using collapseSpaces.induct with
  | case1 => simp [collapseSpaces]
  | case2 a => simp [collapseSpaces]
  | case3 a d cs hcond ih =>
    simpa only [collapseSpaces, if_pos hcond] using ih
  | case4 a d cs hcond ih =>
    simp only [collapseSpaces, if_neg hcond]
    rw [List.chain'_cons']
    refine ⟨?_, ih⟩
    intro y hy
    by_cases hs : isPySpace a = true
    · have hd : isPySpace d = false := by
        cases hd : isPySpace d
        · rfl
        · exact absurd (by simp [hs, hd]) hcond
      rw [collapseSpaces_head_eq (d :: cs) d (by simp) hd] at hy
      simp only [Option.mem_def, Option.some.injEq] at hy
      subst hy
      intro hcon
      rw [hd] at hcon
      exact absurd hcon.2 (by simp)
    · rw [if_neg hs]
      intro hcon
      exact hs hcon.1

theorem head?_dropWhile_not (p : Char → Bool) : ∀ (l : List Char) (c : Char),
    (l.dropWhile p).head? = some c → p c = false := by
  intro l
  induction l with
  | nil => intro c h; simp [List.dropWhile] at h
  | cons a t ih =>
    intro c h
    by_cases ha : p a = true
    · rw [List.dropWhile_cons, if_pos ha] at h
      exact ih c h
    · rw [List.dropWhile_cons, if_neg ha] at h
      simp only [List.head?_cons, Option.some.injEq] at h
      subst h
      cases hpa : p a
      · rfl
      · exact absurd hpa ha

theorem mem_pyStrip {l : List Char} {c : Char} (h : c ∈ pyStrip l) : c ∈ l := by
  unfold pyStrip at h
  rw [List.mem_reverse] at h
  have h1 := (List.dropWhile_suffix _).sublist.subset h
  rw [List.mem_reverse] at h1
  exact (List.dropWhile_suffix _).sublist.subset h1

theorem pyStrip_head {l : List Char} {c : Char} (h : (pyStrip l).head? = some c) :
    isPySpace c = false := by
  unfold pyStrip at h
  rw [List.head?_reverse] at h
  obtain ⟨t, ht⟩ := List.dropWhile_suffix
    (l := (l.dropWhile isPySpace).reverse) isPySpace
  have hA : (l.dropWhile isPySpace).reverse.getLast? = some c := by
    rw [← ht, List.getLast?_append, h]
    rfl
  rw [List.getLast?_reverse] at hA
  exact head?_dropWhile_not _ _ _ hA

theorem pyStrip_last {l : List Char} {c : Char} (h : (pyStrip l).getLast? = some c) :
    isPySpace c = false := by
  unfold pyStrip at h
  rw [List.getLast?_reverse] at h
  exact head?_dropWhile_not _ _ _ h

theorem chain'_pyStrip {R : Char → Char → Prop} {l : List Char}
    (h : List.Chain' R l) : List.Chain' R (pyStrip l) := by
  unfold pyStrip
  rw [List.chain'_reverse]
  apply List.Chain'.suffix ?_ (List.dropWhile_suffix _)
  rw [List.chain'_reverse]
  exact List.Chain'.suffix h (List.dropWhile_suffix _)

theorem map_toLower_id {l : List Char} (h : ∀ c ∈ l, c.toLower = c) :
    l.map Char.toLower = l :=
  (List.map_congr_left h).trans (List.map_id l)

theorem stripPunct_id {l : List Char}
    (h : ∀ c ∈ l, isWordChar c = true ∨ isPySpace c = true) : stripPunct l = l := by
  unfold stripPunct
  have : ∀ c ∈ l, (fun c => if isWordChar c || isPySpace c then c else ' ') c = id c := by
    intro a ha
    rcases h a ha with h1 | h1
    · simp [h1]
    · simp [h1]
  exact (List.map_congr_left this).trans (List.map_id l)

theorem collapseSpaces_id : ∀ l : List Char,
    List.Chain' (fun a b => ¬(isPySpace a = true ∧ isPySpace b = true)) l →
    (∀ c ∈ l, isPySpace c = true → c = ' ') → collapseSpaces l = l := by
  intro l
  induction l using collapseSpaces.induct with
  | case1 => intro _ _; rfl
  | case2 a =>
    intro _ hc
    by_cases hs : isPySpace a = true
    · have ha : a = ' ' := hc a (by simp) hs
      subst ha
      decide
    · simp [collapseSpaces, hs]
  | case3 a d cs hcond ih =>
    intro hch _
    exfalso
    obtain ⟨hr, _⟩ := List.chain'_cons.mp hch
    simp only [Bool.and_eq_true] at hcond
    exact hr ⟨hcond.1, hcond.2⟩
  | case4 a d cs hcond ih =>
    intro hch hc
    obtain ⟨_, hch2⟩ := List.chain'_cons.mp hch
    simp only [collapseSpaces, if_neg hcond]
    congr 1
    · by_cases hs : isPySpace a = true
      · exact (if_pos hs).trans (hc a (by simp) hs).symm
      · exact if_neg hs
    · exact ih hch2 fun x hx hsx => hc x (List.mem_cons_of_mem a hx) hsx

theorem dropWhile_id_of_head {p : Char → Bool} {l : List Char}
    (h : ∀ c, l.head? = some c → p c = false) : l.dropWhile p = l := by
  cases l with
  | nil => rfl
  | cons a t => rw [List.dropWhile_cons, if_neg (by simp [h a rfl])]

theorem pyStrip_id {l : List Char}
    (h1 : ∀ c, l.head? = some c → isPySpace c = false)
    (h2 : ∀ c, l.getLast? = some c → isPySpace c = false) : pyStrip l = l := by
  have hrev : l.reverse.dropWhile isPySpace = l.reverse :=
    dropWhile_id_of_head fun c hc => h2 c (by rwa [List.head?_reverse] at hc)
  unfold pyStrip
  rw [dropWhile_id_of_head h1, hrev, List.reverse_reverse]

theorem normalize_text_facts (s : String) :
    (∀ c ∈ (normalize_text s).data, (isWordChar c = true ∧ c.toLower = c) ∨ c = ' ') ∧
      List.Chain' (fun a b => ¬(isPySpace a = true ∧ isPySpace b = true))
        (normalize_text s).data ∧
      (∀ c, (normalize_text s).data.head? = some c → isPySpace c = false) ∧
      (∀ c, (normalize_text s).data.getLast? = some c → isPySpace c = false) := by
  have hdata : (normalize_text s).data
      = pyStrip (collapseSpaces (stripPunct (s.data.map Char.toLower))) := rfl
  refine ⟨?_, ?_, ?_, ?_⟩
  · intro c hc
    rw [hdata] at hc
    exact collapseSpaces_chars _ (stripPunct_lower_chars s.data) c (mem_pyStrip hc)
  · rw [hdata]
    exact chain'_pyStrip (collapseSpaces_chain _)
  · intro c hc
    rw [hdata] at hc
    exact pyStrip_head hc
  · intro c hc
    rw [hdata] at hc
    exact pyStrip_last hc

theorem normalize_pipeline_id {l : List Char}
    (hchars : ∀ c ∈ l, (isWordChar c = true ∧ c.toLower = c) ∨ c = ' ')
    (hchain : List.Chain' (fun a b => ¬(isPySpace a = true ∧ isPySpace b = true)) l)
    (hh : ∀ c, l.head? = some c → isPySpace c = false)
    (hl : ∀ c, l.getLast? = some c → isPySpace c = false) :
    pyStrip (collapseSpaces (stripPunct (l.map Char.toLower))) = l := by
  have h1 : l.map Char.toLower = l := map_toLower_id fun c hc => by
    rcases hchars c hc with ⟨_, h⟩ | h
    · exact h
    · subst h; decide
  rw [h1]
  have h2 : stripPunct l = l := stripPunct_id fun c hc => by
    rcases hchars c hc with ⟨h, _⟩ | h
    · exact Or.inl h
    · subst h; exact Or.inr (by decide)
  rw [h2]
  have h3 : collapseSpaces l = l := by
    refine collapseSpaces_id l hchain fun c hc hs => ?_
    rcases hchars c hc with ⟨hw, _⟩ | h
    · rw [word_not_pySpace hw] at hs
      exact absurd hs (by simp)
    · exact h
  rw [h3]
  exact pyStrip_id hh hl

/-- C9: `normalize_text` is a total pure function (a Lean function by
construction) whose output is lower-case (every character is fixed by
lower-casing), free of punctuation and symbols (every character is a word
character or a space), single-spaced (no two adjacent spaces), trimmed (no
space at either end), and it is idempotent. -/
theorem normalize_text_idempotent_canonical (s : String) :
    normalize_text (normalize_text s) = normalize_text s ∧
      (∀ c ∈ (normalize_text s).data, (isWordChar c = true ∧ c.toLower = c) ∨ c = ' ') ∧
      List.Chain' (fun a b => ¬(a = ' ' ∧ b = ' ')) (normalize_text s).data ∧
      (normalize_text s).data.head? ≠ some ' ' ∧
      (normalize_text s).data.getLast? ≠ some ' ' := by
  obtain ⟨hchars, hchain, hh, hl⟩ := normalize_text_facts s
  refine ⟨?_, hchars, ?_, ?_, ?_⟩
  · have hid := normalize_pipeline_id hchars hchain hh hl
    calc normalize_text (normalize_text s)
        = String.mk (pyStrip (collapseSpaces (stripPunct
            ((normalize_text s).data.map Char.toLower)))) := rfl
      _ = String.mk (normalize_text s).data := by rw [hid]
      _ = normalize_text s := rfl
  · refine hchain.imp fun a b hab => ?_
    intro hcon
    exact hab ⟨by rw [hcon.1]; decide, by rw [hcon.2]; decide⟩
  · intro hc
    exact absurd (hh ' ' hc) (by decide)
  · intro hc
    exact absurd (hl ' ' hc) (by decide)

end Junior
